import Mathlib

/-!
Shallow embedding of the access-control-and-masking core of the
`mcp-postgresql` server, translated from `src/utils/sql-filter.ts`
(`src/unnamed/part_000`, first document), the legacy monolithic server
(`src/unnamed/part_000`, second document, which carries the `QUERY_LEVELS`
table and the shape of the configuration object), and the pure decision
cores of the request handlers in `src/src/server/index.ts`.

JavaScript values flowing through query-result rows are modelled by the
inductive `JsValue` (with distinct `null` and `undefined`); a row
(`Record<string, unknown>`) is an association list with JS object
semantics: reading an absent key yields `undefined`, and assignment
either overwrites the existing key in place or appends a fresh key at
the end, preserving JS insertion order.
-/

/-- A JavaScript runtime value, as far as the masking core observes it. -/
inductive JsValue where
  | null
  | undefined
  | str (s : String)
  | num (n : Int)
  | bool (b : Bool)
deriving DecidableEq, Repr

/-- A JS object used as a data row: association list of keys to values. -/
abbrev Row := List (String × JsValue)

/-- `row[k]` in JS: the binding of `k`, or `undefined` when `k` is absent
(JS objects hold at most one slot per key). -/
def getKey : Row → String → JsValue
  | [], _ => JsValue.undefined
  | p :: ps, k => if p.1 == k then p.2 else getKey ps k

/-- `row[k] = v` in JS: overwrite the existing slot of `k` in place, else
append a fresh slot at the end (JS insertion order). -/
def setKey : Row → String → JsValue → Row
  | [], k, v => [(k, v)]
  | p :: ps, k, v => if p.1 == k then (k, v) :: ps else p :: setKey ps k v

/-- The keys of a row, in JS insertion order. -/
def rowKeys (row : Row) : List String :=
  List.map Prod.fst row

/-- A `pg` field descriptor `{name, dataTypeID}`.  `name` is optional so that a
malformed descriptor with a missing (`undefined`) name is representable; a
present-but-empty name is `some ""` (both are falsy in the source's
`if (fieldName && field)` guard). -/
structure FieldDescriptor where
  name : Option String
  dataTypeID : Int
deriving DecidableEq, Repr

/-- The `config.dataMasking` object.  The TS code stores the four collections
as `Set<string>` of already lower-cased names and only ever consults
membership and emptiness, so lists stand in for the sets. -/
structure DataMasking where
  enabled : Bool
  hiddenTables : List String
  hiddenColumns : List String
  defaultSensitiveFields : List String
  customSensitiveFields : List String
deriving DecidableEq, Repr

/-- The slice of `Config` consumed by the core: the access level string, the
parsed `POSTGRES_ALLOWED_COMMANDS` list (`config.allowedCommands`, upper-cased
at load time), and the masking settings. -/
structure Config where
  queryLevel : String
  allowedCommands : List String
  dataMasking : DataMasking
deriving DecidableEq, Repr

/-- JS `toLowerCase` restricted to ASCII letters (identifier matching in
this core only ever compares ASCII SQL identifiers). -/
def lowChar (c : Char) : Char :=
  match c with
  | 'A' => 'a' | 'B' => 'b' | 'C' => 'c' | 'D' => 'd' | 'E' => 'e' | 'F' => 'f'
  | 'G' => 'g' | 'H' => 'h' | 'I' => 'i' | 'J' => 'j' | 'K' => 'k' | 'L' => 'l'
  | 'M' => 'm' | 'N' => 'n' | 'O' => 'o' | 'P' => 'p' | 'Q' => 'q' | 'R' => 'r'
  | 'S' => 's' | 'T' => 't' | 'U' => 'u' | 'V' => 'v' | 'W' => 'w' | 'X' => 'x'
  | 'Y' => 'y' | 'Z' => 'z'
  | other => other

/-- JS `toLowerCase` on a whole string (ASCII letters). -/
def lowerString (s : String) : String :=
  String.mk (List.map lowChar s.data)

/-- `isTableHidden` from sql-filter.ts: disabled masking hides nothing,
otherwise membership of the lower-cased table name in `hiddenTables`. -/
def isTableHidden (tableName : String) (config : Config) : Bool :=
  if !config.dataMasking.enabled then false
  else List.contains config.dataMasking.hiddenTables (lowerString tableName)

/-- `isColumnHidden` from sql-filter.ts. -/
def isColumnHidden (columnName : String) (config : Config) : Bool :=
  if !config.dataMasking.enabled then false
  else List.contains config.dataMasking.hiddenColumns (lowerString columnName)

/-- `isSensitiveField` from sql-filter.ts: union of the default and the
custom sensitive-field sets, on the lower-cased field name. -/
def isSensitiveField (fieldName : String) (config : Config) : Bool :=
  if !config.dataMasking.enabled then false
  else
    List.contains config.dataMasking.defaultSensitiveFields (lowerString fieldName)
      || List.contains config.dataMasking.customSensitiveFields (lowerString fieldName)

/-- JS truthiness of a field's `name`: `undefined` and `""` are falsy. -/
def truthyName (n : Option String) : Bool :=
  match n with
  | none => false
  | some s => !(s == "")

/-- The effective visibility the preprocessing loop of `maskSensitiveData`
records for one field: `fieldVisibility[i]` is set to
`!isColumnHidden(fieldName, config)` when `fieldName && field` is truthy and
is left `undefined` (falsy) otherwise. -/
def fieldVisible (config : Config) (f : FieldDescriptor) : Bool :=
  match f.name with
  | some n => !(n == "") && !(isColumnHidden n config)
  | none => false

/-- The `visibleFields` array built by the preprocessing loop: the fields
pushed, in order, are exactly those whose visibility check passed. -/
def visibleFieldsOf (config : Config) (fields : List FieldDescriptor) : List FieldDescriptor :=
  List.filter (fieldVisible config) fields

/-- The `sensitiveFieldNames` set built by the preprocessing loop: names of
visible fields that pass `isSensitiveField`.  The source keeps them in a
`Set` and only consults membership (`has`) and emptiness (`size === 0`),
both of which agree with the list. -/
def sensNamesOf (config : Config) (fields : List FieldDescriptor) : List String :=
  List.map (fun f => Option.getD f.name "")
    (List.filter
      (fun f => fieldVisible config f && isSensitiveField (Option.getD f.name "") config)
      fields)

/-- The per-value masking step of the row loop:
`sensitiveFieldNames.has(fieldName) && value !== null && value !== undefined`
replaces the value by the literal `"***"`, anything else passes through. -/
def maskValue (sens : List String) (name : String) (v : JsValue) : JsValue :=
  if List.contains sens name && !(v == JsValue.null) && !(v == JsValue.undefined)
  then JsValue.str "***"
  else v

/-- One iteration of the row-building loop of `maskSensitiveData`: invisible
(hidden or name-less) fields contribute nothing, visible fields assign the
(possibly masked) looked-up value under their name. -/
def processStep (config : Config) (sens : List String) (row : Row) (acc : Row) (f : FieldDescriptor) : Row :=
  if fieldVisible config f then
    setKey acc (Option.getD f.name "")
      (maskValue sens (Option.getD f.name "") (getKey row (Option.getD f.name "")))
  else acc

/-- The `processedRow` built for one input row by `maskSensitiveData`. -/
def processRow (config : Config) (fields : List FieldDescriptor) (sens : List String) (row : Row) : Row :=
  List.foldl (processStep config sens row) [] fields

/-- The `{rows, fields}` result object of `maskSensitiveData`. -/
structure MaskResult where
  rows : List Row
  fields : List FieldDescriptor
deriving DecidableEq, Repr

/-- `maskSensitiveData` from sql-filter.ts:
1. disabled masking or empty rows: return the inputs unchanged;
2. otherwise preprocess fields into `visibleFields` / `sensitiveFieldNames`;
3. fast path when nothing is sensitive and every field survived the
   visibility pass (`visibleFields.length === fields.length`);
4. otherwise rebuild every row from its visible fields, masking sensitive
   non-null, non-undefined values with `"***"`. -/
def maskSensitiveData (rows : List Row) (fields : List FieldDescriptor) (config : Config) : MaskResult :=
  if !config.dataMasking.enabled || List.isEmpty rows then
    ⟨rows, fields⟩
  else
    let visibleFields := visibleFieldsOf config fields
    let sens := sensNamesOf config fields
    if List.isEmpty sens && visibleFields.length == fields.length then
      ⟨rows, fields⟩
    else
      ⟨List.map (processRow config fields sens) rows, visibleFields⟩

/-- The body of the `tables.filter(...)` callback in `filterTables`, run left
to right over the list: `table.table_name as string` followed by
`.toLowerCase()` throws a `TypeError` (modelled as `Except.error`) when the
record's `table_name` is missing or not a string. -/
def filterTablesGo (hidden : List String) : List Row → Except String (List Row)
  | [] => Except.ok []
  | t :: ts =>
    match getKey t "table_name" with
    | JsValue.str s =>
      match filterTablesGo hidden ts with
      | Except.ok rest =>
        Except.ok (if List.contains hidden (lowerString s) then rest else t :: rest)
      | Except.error e => Except.error e
    | _ => Except.error "TypeError: cannot read toLowerCase of non-string table_name"

/-- `filterTables` from sql-filter.ts: early returns for disabled masking,
empty input, or an empty `hiddenTables` set; otherwise the filter pass. -/
def filterTables (tables : List Row) (config : Config) : Except String (List Row) :=
  if !config.dataMasking.enabled || List.isEmpty tables then Except.ok tables
  else if List.isEmpty config.dataMasking.hiddenTables then Except.ok tables
  else filterTablesGo config.dataMasking.hiddenTables tables

/-- One `information_schema.columns` row as consumed by `getSchema`'s
single-table branch; `column_name` is always delivered as a string by the
metadata query, the remaining attributes ride along in `rest`. -/
structure ColumnRow where
  column_name : String
  rest : List (String × JsValue)
deriving DecidableEq, Repr

/-- Result of the single-table branch of `getSchema` in
`src/src/server/index.ts`: either the distinct "hidden due to security
settings" text response, or the (possibly empty) filtered column list. -/
inductive SchemaResult where
  | hiddenTable (table : String)
  | columns (rows : List ColumnRow)
deriving DecidableEq, Repr

/-- The pure decision core of `getSchema table config` once the database has
answered with `dbRows`: a hidden table short-circuits to the sentinel text,
otherwise hidden columns are filtered out of the rows. -/
def getSchemaSingle (table : String) (dbRows : List ColumnRow) (config : Config) : SchemaResult :=
  if isTableHidden table config then SchemaResult.hiddenTable table
  else SchemaResult.columns
    (List.filter (fun r => !(isColumnHidden r.column_name config)) dbRows)

/-! ### The SQL command classifier (`getSqlCommand`) -/

/-- JS `\s` restricted to the ASCII whitespace actually reachable in SQL
text: space, tab, newline, carriage return, vertical tab, form feed. -/
def isWsChar (c : Char) : Bool :=
  c == ' ' || c == '\t' || c == '\n' || c == '\r' || c == '\x0b' || c == '\x0c'

/-- A JS regex line terminator (the characters `.` refuses to cross and `$`
anchors before, under the `m` flag); the Unicode separators U+2028/U+2029
cannot occur in the SQL strings this server receives. -/
def isLineTerm (c : Char) : Bool :=
  c == '\n' || c == '\r'

/-- JS `toUpperCase` restricted to ASCII letters (the only characters the
upper-cased result is ever compared against). -/
def upChar (c : Char) : Char :=
  match c with
  | 'a' => 'A' | 'b' => 'B' | 'c' => 'C' | 'd' => 'D' | 'e' => 'E' | 'f' => 'F'
  | 'g' => 'G' | 'h' => 'H' | 'i' => 'I' | 'j' => 'J' | 'k' => 'K' | 'l' => 'L'
  | 'm' => 'M' | 'n' => 'N' | 'o' => 'O' | 'p' => 'P' | 'q' => 'Q' | 'r' => 'R'
  | 's' => 'S' | 't' => 'T' | 'u' => 'U' | 'v' => 'V' | 'w' => 'W' | 'x' => 'X'
  | 'y' => 'Y' | 'z' => 'Z'
  | other => other

/-- The `sql.replace` step that deletes line comments (regex `--.*$` with
flags `gm`): a streaming rendering of the global, multi-line regex.  In copy mode (`inComment = false`), the two-character
lookahead `--` switches to comment mode; in comment mode characters are
dropped until a line terminator, which is itself kept (the regex match stops
before it) and copy mode resumes. -/
def stripLine : Bool → List Char → List Char
  | _, [] => []
  | true, c :: rest =>
    if isLineTerm c then c :: stripLine false rest else stripLine true rest
  | false, [c] => [c]
  | false, c1 :: c2 :: rest =>
    if c1 = '-' ∧ c2 = '-' then stripLine true rest
    else c1 :: stripLine false (c2 :: rest)

/-- The `.replace` step that deletes block comments (regex
`\/\*[\s\S]*?\*\/` with flag `g`): a streaming rendering of the
non-greedy block-comment regex.  Outside a comment, `/*` opens one; inside,
the consumed characters are remembered in `saved` (reversed) so that an
unclosed comment — which the regex would not match at all — is emitted
verbatim when the input ends; the first `*/` closes the comment and drops
the saved text, matching the regex's lazy `[\s\S]*?`. -/
def stripBlock : Option (List Char) → List Char → List Char
  | none, [] => []
  | some saved, [] => '/' :: '*' :: saved.reverse
  | none, [c] => [c]
  | none, c1 :: c2 :: rest =>
    if c1 = '/' ∧ c2 = '*' then stripBlock (some []) rest
    else c1 :: stripBlock none (c2 :: rest)
  | some saved, [c] => '/' :: '*' :: saved.reverse ++ [c]
  | some saved, c1 :: c2 :: rest =>
    if c1 = '*' ∧ c2 = '/' then stripBlock none rest
    else stripBlock (some (c1 :: saved)) (c2 :: rest)

/-- JS `String.prototype.trim`: drop whitespace from both ends. -/
def jsTrim (l : List Char) : List Char :=
  (List.dropWhile isWsChar ((List.dropWhile isWsChar l).reverse)).reverse

/-- The fixed 17-command vocabulary of `getSqlCommand`. -/
def commands : List String :=
  ["SELECT", "INSERT", "UPDATE", "DELETE", "CREATE", "DROP", "ALTER", "TRUNCATE",
   "GRANT", "REVOKE", "BEGIN", "COMMIT", "ROLLBACK", "EXPLAIN", "ANALYZE", "VACUUM", "COPY"]

/-- `getSqlCommand` on the character list of the SQL text: strip line
comments, strip block comments, trim, upper-case; the first token of
`split(/\s+/)` of the trimmed text is its maximal leading non-whitespace run
(the empty string when nothing remains, which is falsy), and the result is
that token when it is in the vocabulary, `'UNKNOWN'` otherwise. -/
def getSqlCommandList (l : List Char) : String :=
  let cleanSql := List.map upChar (jsTrim (stripBlock none (stripLine false l)))
  let firstWord := String.mk (List.takeWhile (fun c => !(isWsChar c)) cleanSql)
  if !(firstWord == "") && List.contains commands firstWord then firstWord else "UNKNOWN"

/-- `getSqlCommand` from sql-filter.ts. -/
def getSqlCommand (sql : String) : String :=
  getSqlCommandList sql.data

/-- The *own* properties of the `QUERY_LEVELS` object literal (legacy
server, lines 199–204): `some` of the level's command array for the four
declared keys, `none` for any other key.  The `custom` row points at the
externally supplied `config.allowedCommands`.  This covers only the
object's own properties; a JS lookup also reaches the members inherited
from `Object.prototype`, modelled below by `queryLevelLookup`. -/
def queryLevelCommands (config : Config) (lvl : String) : Option (List String) :=
  if lvl = "readonly" then some ["SELECT"]
  else if lvl = "modify" then some ["SELECT", "INSERT", "UPDATE", "DELETE"]
  else if lvl = "ddl" then
    some ["SELECT", "INSERT", "UPDATE", "DELETE", "CREATE", "DROP", "ALTER", "TRUNCATE"]
  else if lvl = "custom" then some config.allowedCommands
  else none

/-- `isQueryAllowed` from sql-filter.ts, restricted to own-property lookup:
`QUERY_LEVELS[config.queryLevel] || QUERY_LEVELS.readonly` falls back to the
readonly set only when the lookup yields `undefined` (an empty custom array
is truthy in JS and therefore is *not* replaced), then membership of the
classified command.  This rendering is exact whenever `queryLevel` is one
of the four declared level names; for every other string the full JS
semantics — including the inherited `Object.prototype` members, on which
the call throws instead of falling back — is `isQueryAllowedJs`. -/
def isQueryAllowed (sql : String) (config : Config) : Bool :=
  let command := getSqlCommand sql
  let allowedCommands := Option.getD (queryLevelCommands config config.queryLevel) ["SELECT"]
  List.contains allowedCommands command

/-- The member names a plain object literal inherits from
`Object.prototype` (ECMAScript): looking any of these up on `QUERY_LEVELS`
yields a truthy value that is not an array — a function, or, for
`__proto__`, the prototype object itself. -/
def objectPrototypeKeys : List String :=
  ["constructor", "hasOwnProperty", "isPrototypeOf", "propertyIsEnumerable",
   "toLocaleString", "toString", "valueOf", "__proto__",
   "__defineGetter__", "__defineSetter__", "__lookupGetter__", "__lookupSetter__"]

/-- What `QUERY_LEVELS[lvl]` evaluates to in JS: an own array-valued
property for the four declared levels, a truthy non-array inherited member
for an `Object.prototype` name, `undefined` for any other string. -/
inductive PropValue where
  | arr (cmds : List String)
  | inherited
  | undef
deriving DecidableEq, Repr

/-- Full JS property lookup on the `QUERY_LEVELS` object literal: own
properties first, then the prototype chain, then `undefined`. -/
def queryLevelLookup (config : Config) (lvl : String) : PropValue :=
  match queryLevelCommands config lvl with
  | some cmds => PropValue.arr cmds
  | none =>
    if List.contains objectPrototypeKeys lvl then PropValue.inherited
    else PropValue.undef

/-- `isQueryAllowed` under full JS lookup semantics:
`QUERY_LEVELS[config.queryLevel] || QUERY_LEVELS.readonly` replaces only an
`undefined` lookup result (an inherited `Object.prototype` member is truthy
and is kept), after which `(allowedCommands as string[]).includes(command)`
throws a `TypeError` — modelled as `Except.error` — whenever the kept value
is not an array. -/
def isQueryAllowedJs (sql : String) (config : Config) : Except String Bool :=
  let command := getSqlCommand sql
  match queryLevelLookup config config.queryLevel with
  | PropValue.arr allowedCommands => Except.ok (List.contains allowedCommands command)
  | PropValue.inherited =>
    Except.error "TypeError: allowedCommands.includes is not a function"
  | PropValue.undef => Except.ok (List.contains ["SELECT"] command)

/-- The denial text built by `executeQuery` in `src/src/server/index.ts`:
it interpolates `config.queryLevel` and `config.allowedCommands.join(', ')`
— the configured custom command list, whatever the active level is. -/
def deniedText (config : Config) : String :=
  "Query not allowed. Current level: " ++ config.queryLevel
    ++ ". Allowed commands: " ++ String.intercalate ", " config.allowedCommands

/-- The pure gate of `executeQuery`: `none` means the statement proceeds to
the database, `some msg` is the structured "not allowed" text response. -/
def executeQueryGate (sql : String) (config : Config) : Option String :=
  if isQueryAllowed sql config then none else some (deniedText config)

/-- Substring test (used only to state facts about the denial text). -/
def containsSub (needle hay : String) : Bool :=
  List.any (List.range (hay.data.length + 1))
    (fun i => List.isPrefixOf needle.data (List.drop i hay.data))

/-- The denial text the specification describes: the active level's own
permitted-command list (`QUERY_LEVELS[level]`), as the legacy server
rendered it.  Stated here only to compare against `deniedText`. -/
def deniedTextSpec (config : Config) : String :=
  "Query not allowed. Current level: " ++ config.queryLevel
    ++ ". Allowed commands: "
    ++ String.intercalate ", "
        (Option.getD (queryLevelCommands config config.queryLevel) ["SELECT"])

/-- JS `toUpperCase` on a whole string (ASCII letters). -/
def upperString (s : String) : String :=
  String.mk (List.map upChar s.data)

/-- Whether some field in `fields` is visible and carries exactly the name
`n` (the names whose keys the row-building loop can assign). -/
def hasVisName (config : Config) (fields : List FieldDescriptor) (n : String) : Bool :=
  List.any fields (fun f => fieldVisible config f && (f.name == some n))

/-! ### Association-list (JS object) lemmas -/

theorem getKey_setKey_self (row : Row) (k : String) (v : JsValue) :
    getKey (setKey row k v) k = v := by
  induction row with
  | nil => simp [setKey, getKey]
  | cons p ps ih =>
    by_cases hp : (p.1 == k) = true
    · simp [setKey, getKey, hp]
    · simp only [Bool.not_eq_true] at hp
      simp [setKey, getKey, hp, ih]

theorem getKey_setKey_ne (row : Row) (k : String) (v : JsValue) (n : String) (hn : n ≠ k) :
    getKey (setKey row k v) n = getKey row n := by
  have hkn : (k == n) = false := by simp [Ne.symm hn]
  induction row with
  | nil => simp [setKey, getKey, hkn]
  | cons p ps ih =>
    by_cases hp : (p.1 == k) = true
    · have hpk : p.1 = k := by simpa using hp
      simp [setKey, getKey, hp, hkn, hpk]
    · simp only [Bool.not_eq_true] at hp
      simp [setKey, getKey, hp, ih]

theorem mem_rowKeys_setKey (row : Row) (k : String) (v : JsValue) (n : String) :
    n ∈ rowKeys (setKey row k v) → n ∈ rowKeys row ∨ n = k := by
  induction row with
  | nil => simp [setKey, rowKeys]
  | cons p ps ih =>
    by_cases hp : (p.1 == k) = true
    · have hpk : p.1 = k := by simpa using hp
      simp only [setKey, hp, if_true, rowKeys, List.map_cons, List.mem_cons]
      rintro (h | h)
      · exact Or.inr h
      · exact Or.inl (Or.inr h)
    · simp only [Bool.not_eq_true] at hp
      simp only [setKey, hp, Bool.false_eq_true, if_false, rowKeys, List.map_cons,
        List.mem_cons]
      rintro (h | h)
      · exact Or.inl (Or.inl h)
      · rcases ih h with h' | h'
        · exact Or.inl (Or.inr h')
        · exact Or.inr h'

/-! ### Row-building loop lemmas -/

theorem fieldVisible_name (config : Config) (f : FieldDescriptor)
    (h : fieldVisible config f = true) :
    ∃ m, f.name = some m ∧ m ≠ "" ∧ isColumnHidden m config = false := by
  cases hn : f.name with
  | none => rw [fieldVisible, hn] at h; exact absurd h (by simp)
  | some m =>
    rw [fieldVisible, hn] at h
    simp only [Bool.and_eq_true, Bool.not_eq_true'] at h
    refine ⟨m, rfl, ?_, h.2⟩
    simpa using h.1

theorem foldl_processStep_filter (config : Config) (sens : List String) (row : Row) :
    ∀ (fields : List FieldDescriptor) (acc : Row),
      List.foldl (processStep config sens row) acc (List.filter (fieldVisible config) fields)
        = List.foldl (processStep config sens row) acc fields := by
  intro fields
  induction fields with
  | nil => intro acc; rfl
  | cons f fs ih =>
    intro acc
    by_cases hv : fieldVisible config f = true
    · rw [List.filter_cons_of_pos hv, List.foldl_cons, List.foldl_cons, ih]
    · simp only [Bool.not_eq_true] at hv
      rw [List.filter_cons_of_neg (by simp [hv]), List.foldl_cons, ih]
      have : processStep config sens row acc f = acc := by
        rw [processStep, hv]; simp
      rw [this]

theorem processRow_visible (config : Config) (fields : List FieldDescriptor)
    (sens : List String) (row : Row) :
    processRow config (visibleFieldsOf config fields) sens row
      = processRow config fields sens row := by
  rw [processRow, processRow, visibleFieldsOf, foldl_processStep_filter]

theorem getKey_foldl_processStep (config : Config) (sens : List String) (row : Row) (n : String) :
    ∀ (fields : List FieldDescriptor) (acc : Row),
      getKey (List.foldl (processStep config sens row) acc fields) n
        = if hasVisName config fields n then maskValue sens n (getKey row n) else getKey acc n := by
  intro fields
  induction fields with
  | nil => intro acc; simp [hasVisName]
  | cons f fs ih =>
    intro acc
    rw [List.foldl_cons, ih]
    by_cases hv : fieldVisible config f = true
    · obtain ⟨m, hm, -, -⟩ := fieldVisible_name config f hv
      by_cases hmn : m = n
      · have hname : f.name = some n := by rw [hm, hmn]
        have hhead : hasVisName config (f :: fs) n = true := by
          simp [hasVisName, List.any_cons, hv, hname]
        have hstep : getKey (processStep config sens row acc f) n
            = maskValue sens n (getKey row n) := by
          rw [processStep, if_pos hv, hname]
          simp only [Option.getD_some]
          exact getKey_setKey_self acc n _
        by_cases hfs : hasVisName config fs n = true
        · simp [hhead, hfs]
        · simp only [Bool.not_eq_true] at hfs
          simp [hhead, hfs, hstep]
      · have htail : hasVisName config (f :: fs) n = hasVisName config fs n := by
          simp [hasVisName, List.any_cons, hm, hmn]
        have hstep : getKey (processStep config sens row acc f) n = getKey acc n := by
          rw [processStep, if_pos hv, hm]
          simp only [Option.getD_some]
          exact getKey_setKey_ne acc m _ n (Ne.symm hmn)
        by_cases hfs : hasVisName config fs n = true
        · simp [htail, hfs]
        · simp only [Bool.not_eq_true] at hfs
          simp [htail, hfs, hstep]
    · simp only [Bool.not_eq_true] at hv
      have htail : hasVisName config (f :: fs) n = hasVisName config fs n := by
        simp [hasVisName, List.any_cons, hv]
      have hstep : processStep config sens row acc f = acc := by
        rw [processStep, hv]; simp
      rw [htail, hstep]

theorem getKey_processRow (config : Config) (fields : List FieldDescriptor)
    (sens : List String) (row : Row) (n : String) :
    getKey (processRow config fields sens row) n
      = if hasVisName config fields n then maskValue sens n (getKey row n)
        else JsValue.undefined := by
  rw [processRow, getKey_foldl_processStep]
  rfl

theorem mem_rowKeys_foldl_processStep (config : Config) (sens : List String) (row : Row)
    (n : String) :
    ∀ (fields : List FieldDescriptor) (acc : Row),
      n ∈ rowKeys (List.foldl (processStep config sens row) acc fields) →
        n ∈ rowKeys acc ∨ hasVisName config fields n = true := by
  intro fields
  induction fields with
  | nil => intro acc h; exact Or.inl h
  | cons f fs ih =>
    intro acc h
    rw [List.foldl_cons] at h
    rcases ih (processStep config sens row acc f) h with h' | h'
    · by_cases hv : fieldVisible config f = true
      · obtain ⟨m, hm, -, -⟩ := fieldVisible_name config f hv
        rw [processStep, if_pos hv, hm] at h'
        simp only [Option.getD_some] at h'
        rcases mem_rowKeys_setKey acc m _ n h' with h'' | h''
        · exact Or.inl h''
        · refine Or.inr ?_
          simp [hasVisName, List.any_cons, hv, hm, h'']
      · simp only [Bool.not_eq_true] at hv
        rw [processStep, hv] at h'
        simp only [Bool.false_eq_true, if_false] at h'
        exact Or.inl h'
    · refine Or.inr ?_
      simp only [hasVisName, List.any_cons, Bool.or_eq_true]
      simp only [hasVisName] at h'
      exact Or.inr h'

theorem mem_rowKeys_processRow (config : Config) (fields : List FieldDescriptor)
    (sens : List String) (row : Row) (n : String)
    (h : n ∈ rowKeys (processRow config fields sens row)) :
    hasVisName config fields n = true := by
  rcases mem_rowKeys_foldl_processStep config sens row n fields [] h with h' | h'
  · simp [rowKeys] at h'
  · exact h'

/-! ### Masking algebra -/

theorem maskValue_idem (sens : List String) (n : String) (v : JsValue) :
    maskValue sens n (maskValue sens n v) = maskValue sens n v := by
  by_cases h : (List.contains sens n && !(v == JsValue.null) && !(v == JsValue.undefined)) = true
  · have hc : List.contains sens n = true := by
      simp only [Bool.and_eq_true] at h; exact h.1.1
    have hv : maskValue sens n v = JsValue.str "***" := by
      rw [maskValue, if_pos h]
    rw [hv, maskValue, if_pos (by rw [hc]; decide)]
  · simp only [Bool.not_eq_true] at h
    have hv : maskValue sens n v = v := by
      rw [maskValue, h]; simp
    rw [hv]
    exact hv

theorem sensNames_contains_eq (config : Config) (fields : List FieldDescriptor) (n : String)
    (h : hasVisName config fields n = true) :
    List.contains (sensNamesOf config fields) n = isSensitiveField n config := by
  by_cases hs : isSensitiveField n config = true
  · rw [hs]
    simp only [hasVisName, List.any_eq_true, Bool.and_eq_true, beq_iff_eq] at h
    obtain ⟨f, hf, hfv, hfn⟩ := h
    have : n ∈ sensNamesOf config fields := by
      rw [sensNamesOf]
      refine List.mem_map.mpr ⟨f, List.mem_filter.mpr ⟨hf, ?_⟩, by rw [hfn]; rfl⟩
      rw [hfn]
      simp only [Option.getD_some, Bool.and_eq_true]
      exact ⟨hfv, hs⟩
    simpa [List.elem_iff] using this
  · simp only [Bool.not_eq_true] at hs
    rw [hs]
    by_contra hc
    simp only [Bool.not_eq_false] at hc
    have hmem : n ∈ sensNamesOf config fields := by
      simpa [List.elem_iff] using hc
    rw [sensNamesOf] at hmem
    obtain ⟨f, hf, hfn⟩ := List.mem_map.mp hmem
    have := (List.mem_filter.mp hf).2
    simp only [Bool.and_eq_true] at this
    rw [hfn] at this
    rw [this.2] at hs
    exact absurd hs (by simp)

theorem foldl_processStep_congr (config : Config) (sens : List String) (r1 r2 : Row) :
    ∀ (fields : List FieldDescriptor) (acc : Row),
      (∀ n, hasVisName config fields n = true →
        maskValue sens n (getKey r2 n) = maskValue sens n (getKey r1 n)) →
      List.foldl (processStep config sens r2) acc fields
        = List.foldl (processStep config sens r1) acc fields := by
  intro fields
  induction fields with
  | nil => intro acc _; rfl
  | cons f fs ih =>
    intro acc h
    rw [List.foldl_cons, List.foldl_cons]
    have hstep : processStep config sens r2 acc f = processStep config sens r1 acc f := by
      by_cases hv : fieldVisible config f = true
      · obtain ⟨m, hm, -, -⟩ := fieldVisible_name config f hv
        rw [processStep, processStep, if_pos hv, if_pos hv, hm]
        simp only [Option.getD_some]
        rw [h m (by simp [hasVisName, List.any_cons, hv, hm])]
      · simp only [Bool.not_eq_true] at hv
        rw [processStep, processStep, hv]
        simp
    rw [hstep]
    refine ih (processStep config sens r1 acc f) ?_
    intro n hn
    refine h n ?_
    simp only [hasVisName, List.any_cons, Bool.or_eq_true]
    exact Or.inr (by simpa [hasVisName] using hn)

theorem processRow_idem (config : Config) (fields : List FieldDescriptor)
    (sens : List String) (row : Row) :
    processRow config fields sens (processRow config fields sens row)
      = processRow config fields sens row := by
  rw [processRow, processRow]
  refine foldl_processStep_congr config sens row (processRow config fields sens row) fields [] ?_
  intro n hn
  rw [getKey_processRow, if_pos hn, maskValue_idem]

theorem visibleFieldsOf_idem (config : Config) (fields : List FieldDescriptor) :
    visibleFieldsOf config (visibleFieldsOf config fields) = visibleFieldsOf config fields := by
  rw [visibleFieldsOf, visibleFieldsOf, List.filter_filter]
  exact List.filter_congr (fun a _ => Bool.and_self _)

theorem sensNamesOf_visible (config : Config) (fields : List FieldDescriptor) :
    sensNamesOf config (visibleFieldsOf config fields) = sensNamesOf config fields := by
  rw [sensNamesOf, sensNamesOf, visibleFieldsOf, List.filter_filter]
  congr 1
  refine List.filter_congr (fun a _ => ?_)
  cases h : fieldVisible config a <;> simp [h]

/-! ### Branch equations of `maskSensitiveData` -/

theorem maskSensitiveData_skip (rows : List Row) (fields : List FieldDescriptor) (config : Config)
    (h : (!config.dataMasking.enabled || List.isEmpty rows) = true) :
    maskSensitiveData rows fields config = ⟨rows, fields⟩ := by
  rw [maskSensitiveData, if_pos h]

theorem maskSensitiveData_fast (rows : List Row) (fields : List FieldDescriptor) (config : Config)
    (h1 : (!config.dataMasking.enabled || List.isEmpty rows) = false)
    (h2 : (List.isEmpty (sensNamesOf config fields)
            && ((visibleFieldsOf config fields).length == fields.length)) = true) :
    maskSensitiveData rows fields config = ⟨rows, fields⟩ := by
  rw [maskSensitiveData, if_neg (by simp [h1])]
  simp only []
  rw [if_pos h2]

theorem maskSensitiveData_rebuild (rows : List Row) (fields : List FieldDescriptor)
    (config : Config)
    (h1 : (!config.dataMasking.enabled || List.isEmpty rows) = false)
    (h2 : (List.isEmpty (sensNamesOf config fields)
            && ((visibleFieldsOf config fields).length == fields.length)) = false) :
    maskSensitiveData rows fields config
      = ⟨List.map (processRow config fields (sensNamesOf config fields)) rows,
         visibleFieldsOf config fields⟩ := by
  rw [maskSensitiveData, if_neg (by simp [h1])]
  simp only []
  rw [if_neg (by simp [h2])]

/-- C7: `maskSensitiveData` is idempotent — applying it a second time, with
the same config, to the `{rows, fields}` it produced returns exactly that
same `{rows, fields}` (re-masking `"***"` yields `"***"`, preserved
nulls/undefineds stay put, dropped hidden columns stay dropped). -/
theorem mask_idempotent (rows : List Row) (fields : List FieldDescriptor) (config : Config) :
    maskSensitiveData (maskSensitiveData rows fields config).rows
      (maskSensitiveData rows fields config).fields config
      = maskSensitiveData rows fields config := by
  by_cases h1 : (!config.dataMasking.enabled || List.isEmpty rows) = true
  · rw [maskSensitiveData_skip rows fields config h1]
    exact maskSensitiveData_skip rows fields config h1
  · simp only [Bool.not_eq_true] at h1
    by_cases h2 : (List.isEmpty (sensNamesOf config fields)
        && ((visibleFieldsOf config fields).length == fields.length)) = true
    · rw [maskSensitiveData_fast rows fields config h1 h2]
      exact maskSensitiveData_fast rows fields config h1 h2
    · simp only [Bool.not_eq_true] at h2
      rw [maskSensitiveData_rebuild rows fields config h1 h2]
      have hrows : List.isEmpty rows = false := (Bool.or_eq_false_iff.mp h1).2
      have hen : (!config.dataMasking.enabled) = false := (Bool.or_eq_false_iff.mp h1).1
      have hrows' :
          List.isEmpty (List.map (processRow config fields (sensNamesOf config fields)) rows)
            = false := by
        simp only [List.isEmpty_eq_false, ne_eq, List.map_eq_nil_iff]
        simpa using hrows
      have h1' : (!config.dataMasking.enabled
          || List.isEmpty (List.map (processRow config fields (sensNamesOf config fields)) rows))
          = false := by
        rw [hen, hrows']
        rfl
      have hvis2 : visibleFieldsOf config (visibleFieldsOf config fields)
          = visibleFieldsOf config fields := visibleFieldsOf_idem config fields
      have hsens2 : sensNamesOf config (visibleFieldsOf config fields)
          = sensNamesOf config fields := sensNamesOf_visible config fields
      by_cases hs : List.isEmpty (sensNamesOf config fields) = true
      · have h2' : (List.isEmpty (sensNamesOf config (visibleFieldsOf config fields))
            && ((visibleFieldsOf config (visibleFieldsOf config fields)).length
                == (visibleFieldsOf config fields).length)) = true := by
          rw [hsens2, hvis2, hs]
          simp
        rw [maskSensitiveData_fast _ _ config h1' h2']
      · simp only [Bool.not_eq_true] at hs
        have h2' : (List.isEmpty (sensNamesOf config (visibleFieldsOf config fields))
            && ((visibleFieldsOf config (visibleFieldsOf config fields)).length
                == (visibleFieldsOf config fields).length)) = false := by
          rw [hsens2, hs]
          rfl
        rw [maskSensitiveData_rebuild _ _ config h1' h2']
        refine congrArg₂ MaskResult.mk ?_ hvis2
        rw [hsens2, List.map_map]
        refine List.map_congr_left ?_
        intro r _
        simp only [Function.comp_apply]
        rw [processRow_visible, processRow_idem]

/-! ### Hidden-column invariant and fast path -/

theorem truthyName_some (n : Option String) (h : truthyName n = true) :
    ∃ m, n = some m ∧ m ≠ "" := by
  cases n with
  | none => simp [truthyName] at h
  | some m =>
    refine ⟨m, rfl, ?_⟩
    simpa [truthyName] using h

theorem fieldVisible_of_parts (config : Config) (f : FieldDescriptor) (m : String)
    (hm : f.name = some m) (hne : m ≠ "") (hh : isColumnHidden m config = false) :
    fieldVisible config f = true := by
  rw [fieldVisible, hm]
  simp [hne, hh]

theorem visible_of_fast_cond (config : Config) (fields : List FieldDescriptor)
    (h : ((visibleFieldsOf config fields).length == fields.length) = true) :
    ∀ f ∈ fields, fieldVisible config f = true := by
  rw [visibleFieldsOf] at h
  exact List.filter_length_eq_length.mp (by simpa using h)

/-- C1 (amended): with masking enabled, a non-empty rows list, and rows whose
keys all come from the field descriptors' names, no name that is
case-insensitively a member of `hiddenColumns` survives into the returned
fields list or into any returned row's key set.  (The claim's extension to
`enabled = false` — and to the untouched pass-through of the original
`fields`/`rows` when `rows` is empty — is refuted by
`mask_hidden_columns_cex`.) -/
theorem mask_hidden_columns_invariant (rows : List Row) (fields : List FieldDescriptor)
    (config : Config)
    (h1 : config.dataMasking.enabled = true)
    (h2 : rows ≠ [])
    (h3 : ∀ r ∈ rows, ∀ k ∈ rowKeys r, ∃ f ∈ fields, f.name = some k) :
    ∀ name, List.contains config.dataMasking.hiddenColumns (lowerString name) = true →
      (∀ f ∈ (maskSensitiveData rows fields config).fields, f.name ≠ some name)
        ∧ (∀ r ∈ (maskSensitiveData rows fields config).rows, name ∉ rowKeys r) := by
  intro name hname
  have hhid : isColumnHidden name config = true := by
    rw [isColumnHidden, h1]
    simpa using hname
  have hvisne : ∀ f : FieldDescriptor, fieldVisible config f = true → f.name ≠ some name := by
    intro f hv heq
    obtain ⟨m, hm, -, hnothid⟩ := fieldVisible_name config f hv
    rw [heq] at hm
    have : m = name := by injection hm.symm
    rw [this] at hnothid
    rw [hnothid] at hhid
    exact absurd hhid (by simp)
  have hcond1 : (!config.dataMasking.enabled || List.isEmpty rows) = false := by
    rw [h1]
    simpa using h2
  by_cases h2c : (List.isEmpty (sensNamesOf config fields)
      && ((visibleFieldsOf config fields).length == fields.length)) = true
  · rw [maskSensitiveData_fast rows fields config hcond1 h2c]
    have hlen : ((visibleFieldsOf config fields).length == fields.length) = true := by
      simp only [Bool.and_eq_true] at h2c
      exact h2c.2
    have hallvis : ∀ f ∈ fields, fieldVisible config f = true :=
      visible_of_fast_cond config fields hlen
    constructor
    · intro f hf
      exact hvisne f (hallvis f hf)
    · intro r hr hmem
      obtain ⟨f, hf, hfn⟩ := h3 r hr name hmem
      exact hvisne f (hallvis f hf) hfn
  · simp only [Bool.not_eq_true] at h2c
    rw [maskSensitiveData_rebuild rows fields config hcond1 h2c]
    constructor
    · intro f hf
      exact hvisne f (List.mem_filter.mp hf).2
    · intro r' hr' hmem
      obtain ⟨r, -, rfl⟩ := List.mem_map.mp hr'
      have hvn := mem_rowKeys_processRow config fields (sensNamesOf config fields) r name hmem
      simp only [hasVisName, List.any_eq_true, Bool.and_eq_true, beq_iff_eq] at hvn
      obtain ⟨f, -, hfv, hfn⟩ := hvn
      exact hvisne f hfv hfn

/-- Witness for `mask_hidden_columns_invariant` at a concrete input. -/
theorem mask_hidden_columns_invariant_witness :
    (∀ f ∈ (maskSensitiveData [[("id", JsValue.num 1), ("password", JsValue.str "x")]]
        [⟨some "id", 23⟩, ⟨some "password", 25⟩]
        ⟨"readonly", [], ⟨true, [], ["password"], [], []⟩⟩).fields, f.name ≠ some "password")
      ∧ (∀ r ∈ (maskSensitiveData [[("id", JsValue.num 1), ("password", JsValue.str "x")]]
          [⟨some "id", 23⟩, ⟨some "password", 25⟩]
          ⟨"readonly", [], ⟨true, [], ["password"], [], []⟩⟩).rows, "password" ∉ rowKeys r) :=
  mask_hidden_columns_invariant
    [[("id", JsValue.num 1), ("password", JsValue.str "x")]]
    [⟨some "id", 23⟩, ⟨some "password", 25⟩]
    ⟨"readonly", [], ⟨true, [], ["password"], [], []⟩⟩
    (by decide) (by decide)
    (by intro r hr k hk
        simp only [List.mem_singleton] at hr
        subst hr
        simp only [rowKeys, List.map_cons, List.map_nil, List.mem_cons,
          List.mem_singleton, List.not_mem_nil, or_false] at hk
        rcases hk with rfl | rfl
        · exact ⟨⟨some "id", 23⟩, by simp⟩
        · exact ⟨⟨some "password", 25⟩, by simp⟩)
    "password" (by decide)

/-- C1 counterexample: the claim as stated also covers `enabled = false` and
empty rows, where `maskSensitiveData` returns its inputs untouched, so a
hidden column name does appear in the returned fields. -/
theorem mask_hidden_columns_cex :
    (Config.mk "readonly" [] ⟨false, [], ["password"], [], []⟩).dataMasking.hiddenColumns ≠ []
      ∧ List.contains
          (Config.mk "readonly" [] ⟨false, [], ["password"], [], []⟩).dataMasking.hiddenColumns
          (lowerString "password") = true
      ∧ (maskSensitiveData [] [⟨some "password", 25⟩]
          (Config.mk "readonly" [] ⟨false, [], ["password"], [], []⟩)).fields
          = [⟨some "password", 25⟩] := by
  refine ⟨by decide, by decide, by decide⟩

/-! ### Value redaction (sensitive fields) -/

/-- C5: on the row-rebuilding path (masking enabled, rows non-empty, some
field hidden or some visible field sensitive), each output row is
`processRow` of the input row, and a visible field named `n` holds `"***"`
exactly when `n` is sensitive and the original value was neither `null` nor
`undefined`; otherwise (including preserved nulls/absences and every
non-sensitive visible field) the original value passes through unchanged. -/
theorem mask_value_redaction (rows : List Row) (fields : List FieldDescriptor) (config : Config)
    (h1 : config.dataMasking.enabled = true)
    (h2 : rows ≠ [])
    (h3 : (∃ f ∈ fields, ∃ n, f.name = some n ∧ n ≠ "" ∧ isColumnHidden n config = true)
        ∨ (∃ f ∈ fields, fieldVisible config f = true
            ∧ isSensitiveField (Option.getD f.name "") config = true)) :
    (maskSensitiveData rows fields config).rows
        = List.map (processRow config fields (sensNamesOf config fields)) rows
      ∧ ∀ row ∈ rows, ∀ f ∈ fields, fieldVisible config f = true → ∀ n, f.name = some n →
          getKey (processRow config fields (sensNamesOf config fields) row) n
            = (if isSensitiveField n config
                  && !(getKey row n == JsValue.null) && !(getKey row n == JsValue.undefined)
               then JsValue.str "***" else getKey row n) := by
  have hcond1 : (!config.dataMasking.enabled || List.isEmpty rows) = false := by
    rw [h1]
    simpa using h2
  have h2c : (List.isEmpty (sensNamesOf config fields)
      && ((visibleFieldsOf config fields).length == fields.length)) = false := by
    rcases h3 with ⟨f, hf, n, hn, hne, hhid⟩ | ⟨f, hf, hfv, hfs⟩
    · have hnv : fieldVisible config f = false := by
        rw [fieldVisible, hn]
        simp [hhid]
      by_contra hc
      simp only [Bool.not_eq_false, Bool.and_eq_true] at hc
      have := visible_of_fast_cond config fields hc.2 f hf
      rw [this] at hnv
      exact absurd hnv (by simp)
    · have : f ∈ List.filter
          (fun f => fieldVisible config f && isSensitiveField (Option.getD f.name "") config)
          fields := List.mem_filter.mpr ⟨hf, by rw [hfv, hfs]; rfl⟩
      have hmem : Option.getD f.name "" ∈ sensNamesOf config fields := by
        rw [sensNamesOf]
        exact List.mem_map.mpr ⟨f, this, rfl⟩
      by_contra hc
      simp only [Bool.not_eq_false, Bool.and_eq_true, List.isEmpty_eq_true] at hc
      rw [hc.1] at hmem
      exact absurd hmem (List.not_mem_nil _)
  constructor
  · rw [maskSensitiveData_rebuild rows fields config hcond1 h2c]
  · intro row _ f hf hfv n hn
    have hvis : hasVisName config fields n = true := by
      simp only [hasVisName, List.any_eq_true]
      exact ⟨f, hf, by rw [hfv, hn]; simp⟩
    rw [getKey_processRow, if_pos hvis, maskValue,
      sensNames_contains_eq config fields n hvis]

/-- Witness for `mask_value_redaction`: the spec's redaction example, with a
redacted string, a preserved null, and a pass-through id column. -/
theorem mask_value_redaction_witness :
    (maskSensitiveData [[("id", JsValue.num 1), ("password", JsValue.str "hunter2")]]
        [⟨some "id", 23⟩, ⟨some "password", 25⟩]
        ⟨"readonly", [], ⟨true, [], [], ["password"], []⟩⟩).rows
      = List.map
          (processRow ⟨"readonly", [], ⟨true, [], [], ["password"], []⟩⟩
            [⟨some "id", 23⟩, ⟨some "password", 25⟩]
            (sensNamesOf ⟨"readonly", [], ⟨true, [], [], ["password"], []⟩⟩
              [⟨some "id", 23⟩, ⟨some "password", 25⟩]))
          [[("id", JsValue.num 1), ("password", JsValue.str "hunter2")]]
      ∧ getKey
          (processRow ⟨"readonly", [], ⟨true, [], [], ["password"], []⟩⟩
            [⟨some "id", 23⟩, ⟨some "password", 25⟩]
            (sensNamesOf ⟨"readonly", [], ⟨true, [], [], ["password"], []⟩⟩
              [⟨some "id", 23⟩, ⟨some "password", 25⟩])
            [("id", JsValue.num 1), ("password", JsValue.str "hunter2")])
          "password"
        = JsValue.str "***" := by
  have h := mask_value_redaction
    [[("id", JsValue.num 1), ("password", JsValue.str "hunter2")]]
    [⟨some "id", 23⟩, ⟨some "password", 25⟩]
    ⟨"readonly", [], ⟨true, [], [], ["password"], []⟩⟩
    (by decide) (by decide)
    (Or.inr ⟨⟨some "password", 25⟩, by decide, by decide, by decide⟩)
  refine ⟨h.1, ?_⟩
  have h2 := h.2 [("id", JsValue.num 1), ("password", JsValue.str "hunter2")] (by decide)
    ⟨some "password", 25⟩ (by decide) (by decide) "password" rfl
  rw [h2]
  decide

/-! ### Fast path (identity) -/

/-- C6 (amended): with masking enabled, non-empty rows, every field
descriptor carrying a truthy (present, non-empty) name, no field hidden and
no field sensitive, `maskSensitiveData` returns its two inputs unchanged.
(The claim as stated, without the truthy-name proviso, is refuted by
`mask_fast_path_cex`: a name-less descriptor defeats the
`visibleFields.length === fields.length` check and forces a rebuild.) -/
theorem mask_fast_path (rows : List Row) (fields : List FieldDescriptor) (config : Config)
    (h1 : config.dataMasking.enabled = true)
    (h2 : rows ≠ [])
    (h3 : ∀ f ∈ fields, truthyName f.name = true)
    (h4 : ∀ f ∈ fields, ∀ n, f.name = some n → isColumnHidden n config = false)
    (h5 : ∀ f ∈ fields, ∀ n, f.name = some n → isSensitiveField n config = false) :
    maskSensitiveData rows fields config = ⟨rows, fields⟩ := by
  have hcond1 : (!config.dataMasking.enabled || List.isEmpty rows) = false := by
    rw [h1]
    simpa using h2
  have hallvis : ∀ f ∈ fields, fieldVisible config f = true := by
    intro f hf
    obtain ⟨m, hm, hne⟩ := truthyName_some f.name (h3 f hf)
    exact fieldVisible_of_parts config f m hm hne (h4 f hf m hm)
  have hfilter : visibleFieldsOf config fields = fields := by
    rw [visibleFieldsOf]
    exact List.filter_eq_self.mpr hallvis
  have hsens : sensNamesOf config fields = [] := by
    rw [sensNamesOf]
    have : List.filter
        (fun f => fieldVisible config f && isSensitiveField (Option.getD f.name "") config)
        fields = [] := by
      rw [List.filter_eq_nil_iff]
      intro f hf
      obtain ⟨m, hm, -⟩ := truthyName_some f.name (h3 f hf)
      rw [Bool.and_eq_true, not_and]
      intro _
      rw [hm]
      simp only [Option.getD_some]
      rw [h5 f hf m hm]
      simp
    rw [this]
    rfl
  refine maskSensitiveData_fast rows fields config hcond1 ?_
  rw [hsens, hfilter]
  simp

/-- Witness for `mask_fast_path` at a concrete input. -/
theorem mask_fast_path_witness :
    maskSensitiveData [[("id", JsValue.num 1)]] [⟨some "id", 23⟩]
        ⟨"readonly", [], ⟨true, [], ["secret"], ["password"], []⟩⟩
      = ⟨[[("id", JsValue.num 1)]], [⟨some "id", 23⟩]⟩ :=
  mask_fast_path [[("id", JsValue.num 1)]] [⟨some "id", 23⟩]
    ⟨"readonly", [], ⟨true, [], ["secret"], ["password"], []⟩⟩
    (by decide) (by decide)
    (by intro f hf; simp only [List.mem_singleton] at hf; subst hf; decide)
    (by intro f hf n hn
        simp only [List.mem_singleton] at hf
        subst hf
        injection hn with hn
        subst hn
        decide)
    (by intro f hf n hn
        simp only [List.mem_singleton] at hf
        subst hf
        injection hn with hn
        subst hn
        decide)

/-- C6 counterexample: masking enabled, rows non-empty, no field hidden and
no field sensitive, yet `maskSensitiveData` rebuilds: a descriptor whose
`name` is missing is dropped, so the returned fields and rows are not the
original references (nor even equal to them). -/
theorem mask_fast_path_cex :
    (Config.mk "readonly" [] ⟨true, [], [], [], []⟩).dataMasking.enabled = true
      ∧ (∀ f ∈ [FieldDescriptor.mk none 0], ∀ n, f.name = some n →
          isColumnHidden n (Config.mk "readonly" [] ⟨true, [], [], [], []⟩) = false)
      ∧ (∀ f ∈ [FieldDescriptor.mk none 0], ∀ n, f.name = some n →
          isSensitiveField n (Config.mk "readonly" [] ⟨true, [], [], [], []⟩) = false)
      ∧ maskSensitiveData [[("a", JsValue.num 1)]] [FieldDescriptor.mk none 0]
          (Config.mk "readonly" [] ⟨true, [], [], [], []⟩)
          ≠ ⟨[[("a", JsValue.num 1)]], [FieldDescriptor.mk none 0]⟩ := by
  refine ⟨by decide, ?_, ?_, by decide⟩
  · intro f hf n hn
    simp only [List.mem_singleton] at hf
    subst hf
    exact absurd hn (by simp)
  · intro f hf n hn
    simp only [List.mem_singleton] at hf
    subst hf
    exact absurd hn (by simp)

/-! ### Malformed inputs: skipping in `mask`, a thrown TypeError in `filterTables` -/

theorem fieldVisible_not_truthy (config : Config) (f : FieldDescriptor)
    (h : truthyName f.name = false) : fieldVisible config f = false := by
  cases hn : f.name with
  | none => rw [fieldVisible, hn]
  | some m =>
    rw [hn] at h
    have hm : m = "" := by simpa [truthyName] using h
    rw [fieldVisible, hn, hm]
    simp

theorem filterTablesGo_error_iff (hidden : List String) :
    ∀ tables : List Row,
      (∃ e, filterTablesGo hidden tables = Except.error e)
        ↔ ∃ t ∈ tables, ∀ s, getKey t "table_name" ≠ JsValue.str s := by
  intro tables
  induction tables with
  | nil =>
    constructor
    · rintro ⟨e, he⟩
      rw [filterTablesGo] at he
      exact absurd he (by simp)
    · rintro ⟨t, ht, -⟩
      exact absurd ht (List.not_mem_nil t)
  | cons t ts ih =>
    constructor
    · rintro ⟨e, he⟩
      rw [filterTablesGo] at he
      cases hv : getKey t "table_name" with
      | str s =>
        rw [hv] at he
        cases hgo : filterTablesGo hidden ts with
        | ok rest => rw [hgo] at he; exact absurd he (by simp)
        | error e' =>
          obtain ⟨t', ht', hbad⟩ := ih.mp ⟨e', hgo⟩
          exact ⟨t', List.mem_cons_of_mem t ht', hbad⟩
      | null => exact ⟨t, List.mem_cons_self t ts, by rw [hv]; intro s h; exact absurd h (by simp)⟩
      | undefined =>
        exact ⟨t, List.mem_cons_self t ts, by rw [hv]; intro s h; exact absurd h (by simp)⟩
      | num n => exact ⟨t, List.mem_cons_self t ts, by rw [hv]; intro s h; exact absurd h (by simp)⟩
      | bool b =>
        exact ⟨t, List.mem_cons_self t ts, by rw [hv]; intro s h; exact absurd h (by simp)⟩
    · rintro ⟨t', ht', hbad⟩
      rcases List.mem_cons.mp ht' with rfl | hts
      · cases hv : getKey t' "table_name" with
        | str s => exact absurd hv (hbad s)
        | null => exact ⟨_, by rw [filterTablesGo, hv]⟩
        | undefined => exact ⟨_, by rw [filterTablesGo, hv]⟩
        | num n => exact ⟨_, by rw [filterTablesGo, hv]⟩
        | bool b => exact ⟨_, by rw [filterTablesGo, hv]⟩
      · obtain ⟨e', hgo⟩ := ih.mpr ⟨t', hts, hbad⟩
        cases hv : getKey t "table_name" with
        | str s => exact ⟨e', by rw [filterTablesGo, hv, hgo]⟩
        | null => exact ⟨_, by rw [filterTablesGo, hv]⟩
        | undefined => exact ⟨_, by rw [filterTablesGo, hv]⟩
        | num n => exact ⟨_, by rw [filterTablesGo, hv]⟩
        | bool b => exact ⟨_, by rw [filterTablesGo, hv]⟩

/-- C8 (amended): classify, decide and mask are total — in particular the
masking engine skips a field descriptor whose name is missing or empty: it
contributes nothing to the rebuilt rows and never enters the visible-field
list.  `filterTables`, however, is *not* total on malformed table records:
with masking enabled and a non-empty `hiddenTables` set it evaluates
`table.table_name.toLowerCase()` on every record and throws a `TypeError`
(modelled as `Except.error`) exactly when some record's `table_name` is
missing or not a string; such a record is not skipped. -/
theorem malformed_input_handling (config : Config) :
    (∀ (sens : List String) (row : Row) (bad : FieldDescriptor)
        (fs1 fs2 : List FieldDescriptor), truthyName bad.name = false →
          processRow config (fs1 ++ bad :: fs2) sens row
            = processRow config (fs1 ++ fs2) sens row)
      ∧ (∀ (fields : List FieldDescriptor) (bad : FieldDescriptor), bad ∈ fields →
          truthyName bad.name = false → bad ∉ visibleFieldsOf config fields)
      ∧ (∀ tables : List Row, config.dataMasking.enabled = true →
          config.dataMasking.hiddenTables ≠ [] → tables ≠ [] →
          ((∃ e, filterTables tables config = Except.error e)
            ↔ ∃ t ∈ tables, ∀ s, getKey t "table_name" ≠ JsValue.str s)) := by
  refine ⟨?_, ?_, ?_⟩
  · intro sens row bad fs1 fs2 hbad
    rw [processRow, processRow, List.foldl_append, List.foldl_append, List.foldl_cons]
    have : processStep config sens row (List.foldl (processStep config sens row) [] fs1) bad
        = List.foldl (processStep config sens row) [] fs1 := by
      rw [processStep, fieldVisible_not_truthy config bad hbad]
      simp
    rw [this]
  · intro fields bad hmem hbad hvis
    have := (List.mem_filter.mp hvis).2
    rw [fieldVisible_not_truthy config bad hbad] at this
    exact absurd this (by simp)
  · intro tables hen hhid hne
    have h1 : (!config.dataMasking.enabled || List.isEmpty tables) = false := by
      rw [hen]
      simpa using hne
    rw [filterTables, if_neg (by simp [h1]), if_neg (by simpa using hhid)]
    exact filterTablesGo_error_iff config.dataMasking.hiddenTables tables

/-- Witness for `malformed_input_handling` at concrete inputs. -/
theorem malformed_input_handling_witness :
    (processRow (Config.mk "readonly" [] ⟨true, [], [], [], []⟩)
        ([⟨some "id", 23⟩] ++ FieldDescriptor.mk none 0 :: [])
        [] [("id", JsValue.num 1)]
      = processRow (Config.mk "readonly" [] ⟨true, [], [], [], []⟩)
          ([⟨some "id", 23⟩] ++ []) [] [("id", JsValue.num 1)])
      ∧ (∃ e, filterTables [[("other", JsValue.num 1)]]
          (Config.mk "readonly" [] ⟨true, ["x"], [], [], []⟩) = Except.error e) := by
  constructor
  · exact (malformed_input_handling (Config.mk "readonly" [] ⟨true, [], [], [], []⟩)).1
      [] [("id", JsValue.num 1)] (FieldDescriptor.mk none 0) [⟨some "id", 23⟩] [] (by decide)
  · refine ((malformed_input_handling (Config.mk "readonly" [] ⟨true, ["x"], [], [], []⟩)).2.2
      [[("other", JsValue.num 1)]] (by decide) (by decide) (by decide)).mpr ?_
    refine ⟨[("other", JsValue.num 1)], by decide, ?_⟩
    intro s h
    have hu : getKey [("other", JsValue.num 1)] "table_name" = JsValue.undefined := by decide
    rw [hu] at h
    exact JsValue.noConfusion h

/-- C8 counterexample: one table record without a string `table_name` makes
`filterTables` fail (the modelled TypeError) instead of being skipped, under
an enabled masking policy with a non-empty `hiddenTables`. -/
theorem filterTables_throws_cex :
    (filterTables [[("other", JsValue.num 1)]]
        (Config.mk "readonly" [] ⟨true, ["x"], [], [], []⟩)).isOk = false := by
  decide

/-! ### Single-table schema mode -/

/-- C4 (amended): in single-table schema mode, *when masking is enabled*, a
requested table whose lower-cased name is in `hiddenTables` short-circuits to
the distinct hidden-table sentinel; in every other case (masking disabled, or
table not hidden) the result is the table's column rows with the
hidden-column names removed — and the sentinel is distinct from every
column-list result, in particular from the empty one.  (The claim as stated
omits the enabled guard of `isTableHidden` and is refuted by
`schema_hidden_table_cex`.) -/
theorem schema_single_table :
    (∀ (table : String) (dbRows : List ColumnRow) (config : Config),
        config.dataMasking.enabled = true →
        List.contains config.dataMasking.hiddenTables (lowerString table) = true →
        getSchemaSingle table dbRows config = SchemaResult.hiddenTable table)
      ∧ (∀ (table : String) (dbRows : List ColumnRow) (config : Config),
          isTableHidden table config = false →
          getSchemaSingle table dbRows config
            = SchemaResult.columns
                (List.filter (fun r => !(isColumnHidden r.column_name config)) dbRows))
      ∧ (∀ (table : String) (rows : List ColumnRow),
          SchemaResult.hiddenTable table ≠ SchemaResult.columns rows) := by
  refine ⟨?_, ?_, ?_⟩
  · intro table dbRows config hen hmem
    have : isTableHidden table config = true := by
      rw [isTableHidden, hen]
      simpa using hmem
    rw [getSchemaSingle, if_pos this]
  · intro table dbRows config hh
    rw [getSchemaSingle, if_neg (by simp [hh])]
  · intro table rows h
    exact SchemaResult.noConfusion h

/-- Witness for `schema_single_table` at concrete inputs. -/
theorem schema_single_table_witness :
    getSchemaSingle "secret_table" [⟨"id", []⟩]
        (Config.mk "readonly" [] ⟨true, ["secret_table"], [], [], []⟩)
        = SchemaResult.hiddenTable "secret_table"
      ∧ getSchemaSingle "users" [⟨"id", []⟩, ⟨"password", []⟩]
          (Config.mk "readonly" [] ⟨true, ["secret_table"], ["password"], [], []⟩)
          = SchemaResult.columns
              (List.filter
                (fun r => !(isColumnHidden r.column_name
                  (Config.mk "readonly" [] ⟨true, ["secret_table"], ["password"], [], []⟩)))
                [⟨"id", []⟩, ⟨"password", []⟩])
      ∧ SchemaResult.hiddenTable "secret_table" ≠ SchemaResult.columns [] := by
  refine ⟨?_, ?_, ?_⟩
  · exact schema_single_table.1 "secret_table" [⟨"id", []⟩]
      (Config.mk "readonly" [] ⟨true, ["secret_table"], [], [], []⟩) (by decide) (by decide)
  · exact schema_single_table.2.1 "users" [⟨"id", []⟩, ⟨"password", []⟩]
      (Config.mk "readonly" [] ⟨true, ["secret_table"], ["password"], [], []⟩) (by decide)
  · exact schema_single_table.2.2 "secret_table" []

/-- C4 counterexample: with masking disabled, a requested table that *is* in
`hiddenTables` does not get the sentinel — `getSchema` returns its (even
unfiltered) column list. -/
theorem schema_hidden_table_cex :
    List.contains
        (Config.mk "readonly" [] ⟨false, ["secret_table"], [], [], []⟩).dataMasking.hiddenTables
        (lowerString "secret_table") = true
      ∧ getSchemaSingle "secret_table" [⟨"id", []⟩]
          (Config.mk "readonly" [] ⟨false, ["secret_table"], [], [], []⟩)
          ≠ SchemaResult.hiddenTable "secret_table" := by
  refine ⟨by decide, by decide⟩

/-! ### The access-policy engine -/

/-- C2: `isQueryAllowed` returns `true` exactly when the classified command
is a member of the permitted-command set of the configured level; none of
the three built-in levels contains `UNKNOWN`; and under `custom` with an
empty `allowedCommands` list every SQL string is denied (the JS `||`
fallback does not fire on an empty — truthy — array). -/
theorem decide_allowed_contract :
    (∀ (sql : String) (config : Config) (cmds : List String),
        queryLevelCommands config config.queryLevel = some cmds →
        (isQueryAllowed sql config = true ↔ List.contains cmds (getSqlCommand sql) = true))
      ∧ (∀ (config : Config) (lvl : String) (cmds : List String), lvl ≠ "custom" →
          queryLevelCommands config lvl = some cmds → List.contains cmds "UNKNOWN" = false)
      ∧ (∀ (sql : String) (config : Config), config.queryLevel = "custom" →
          config.allowedCommands = [] → isQueryAllowed sql config = false) := by
  refine ⟨?_, ?_, ?_⟩
  · intro sql config cmds h
    rw [isQueryAllowed, h]
    exact Iff.rfl
  · intro config lvl cmds hne h
    rw [queryLevelCommands] at h
    by_cases h1 : lvl = "readonly"
    · rw [if_pos h1] at h
      injection h with h; subst h; decide
    · rw [if_neg h1] at h
      by_cases h2 : lvl = "modify"
      · rw [if_pos h2] at h
        injection h with h; subst h; decide
      · rw [if_neg h2] at h
        by_cases h3 : lvl = "ddl"
        · rw [if_pos h3] at h
          injection h with h; subst h; decide
        · rw [if_neg h3] at h
          by_cases h4 : lvl = "custom"
          · exact absurd h4 hne
          · rw [if_neg h4] at h
            exact Option.noConfusion h
  · intro sql config hlvl hcmds
    rw [isQueryAllowed, hlvl, queryLevelCommands, hcmds]
    rfl

/-- Witness for `decide_allowed_contract` at concrete configurations. -/
theorem decide_allowed_contract_witness :
    isQueryAllowed "SELECT * FROM t" (Config.mk "readonly" [] ⟨true, [], [], [], []⟩) = true
      ∧ List.contains ["SELECT"] "UNKNOWN" = false
      ∧ isQueryAllowed "SELECT * FROM t" (Config.mk "custom" [] ⟨true, [], [], [], []⟩) = false := by
  refine ⟨?_, ?_, ?_⟩
  · exact (decide_allowed_contract.1 "SELECT * FROM t"
      (Config.mk "readonly" [] ⟨true, [], [], [], []⟩) ["SELECT"] rfl).mpr (by decide)
  · exact decide_allowed_contract.2.1 (Config.mk "readonly" [] ⟨true, [], [], [], []⟩)
      "readonly" ["SELECT"] (by decide) rfl
  · exact decide_allowed_contract.2.2 "SELECT * FROM t"
      (Config.mk "custom" [] ⟨true, [], [], [], []⟩) rfl rfl

/-- Where the level string is one of the four declared keys, the
own-property rendering `isQueryAllowed` and the full JS lookup agree: the
call returns (never throws) the same boolean. -/
theorem isQueryAllowedJs_agrees (sql : String) (config : Config) (cmds : List String)
    (h : queryLevelCommands config config.queryLevel = some cmds) :
    isQueryAllowedJs sql config = Except.ok (isQueryAllowed sql config) := by
  have hlook : queryLevelLookup config config.queryLevel = PropValue.arr cmds := by
    rw [queryLevelLookup, h]
  rw [isQueryAllowedJs, hlook, isQueryAllowed, h]
  rfl

/-- C10 (amended): for an access-level string that is none of the four
recognized levels, `isQueryAllowed` silently falls back to the readonly
set — `SELECT` is allowed, everything else (including `UNKNOWN`) is denied,
and no error is raised — *provided* the string is not the name of a member
inherited from `Object.prototype`.  For those names (`"toString"`,
`"constructor"`, …) the lookup yields a truthy non-array, the `||` fallback
does not fire, and `allowedCommands.includes(command)` throws a
`TypeError` instead, refuting the claim's universal "rather than … raising
an error" (see `unknown_level_toString_cex`). -/
theorem unknown_level_fallback (sql : String) (config : Config)
    (h : config.queryLevel ≠ "readonly" ∧ config.queryLevel ≠ "modify"
          ∧ config.queryLevel ≠ "ddl" ∧ config.queryLevel ≠ "custom") :
    (List.contains objectPrototypeKeys config.queryLevel = false →
        isQueryAllowedJs sql config = Except.ok (getSqlCommand sql == "SELECT"))
      ∧ (List.contains objectPrototypeKeys config.queryLevel = true →
        isQueryAllowedJs sql config
          = Except.error "TypeError: allowedCommands.includes is not a function") := by
  have hnone : queryLevelCommands config config.queryLevel = none := by
    rw [queryLevelCommands, if_neg h.1, if_neg h.2.1, if_neg h.2.2.1, if_neg h.2.2.2]
  constructor
  · intro hp
    have hp' : config.queryLevel ∉ objectPrototypeKeys := by
      simpa [List.contains, List.elem_iff] using hp
    have hlook : queryLevelLookup config config.queryLevel = PropValue.undef := by
      rw [queryLevelLookup, hnone]
      simp [hp']
    rw [isQueryAllowedJs, hlook]
    cases hx : getSqlCommand sql == "SELECT" <;> simp [List.contains, List.elem, hx]
  · intro hp
    have hp' : config.queryLevel ∈ objectPrototypeKeys := by
      simpa [List.contains, List.elem_iff] using hp
    have hlook : queryLevelLookup config config.queryLevel = PropValue.inherited := by
      rw [queryLevelLookup, hnone]
      simp [hp']
    rw [isQueryAllowedJs, hlook]

/-- Witness for `unknown_level_fallback`: a misconfigured level that is not
an `Object.prototype` member name behaves like readonly (SELECT allowed,
DELETE denied, no error), while `valueOf` throws. -/
theorem unknown_level_fallback_witness :
    isQueryAllowedJs "SELECT 1" (Config.mk "weird" [] ⟨true, [], [], [], []⟩)
        = Except.ok true
      ∧ isQueryAllowedJs "DELETE FROM t" (Config.mk "weird" [] ⟨true, [], [], [], []⟩)
        = Except.ok false
      ∧ isQueryAllowedJs "SELECT 1" (Config.mk "valueOf" [] ⟨true, [], [], [], []⟩)
        = Except.error "TypeError: allowedCommands.includes is not a function" := by
  refine ⟨?_, ?_, ?_⟩
  · have h := (unknown_level_fallback "SELECT 1" (Config.mk "weird" [] ⟨true, [], [], [], []⟩)
      ⟨by decide, by decide, by decide, by decide⟩).1 (by decide)
    rw [h]
    rfl
  · have h := (unknown_level_fallback "DELETE FROM t"
      (Config.mk "weird" [] ⟨true, [], [], [], []⟩)
      ⟨by decide, by decide, by decide, by decide⟩).1 (by decide)
    rw [h]
    rfl
  · exact (unknown_level_fallback "SELECT 1" (Config.mk "valueOf" [] ⟨true, [], [], [], []⟩)
      ⟨by decide, by decide, by decide, by decide⟩).2 (by decide)

/-- C10 counterexample: `"toString"` is not one of the four recognized
levels, yet the JS lookup finds the inherited, truthy
`Object.prototype.toString`, so the readonly fallback does not fire and the
`.includes` call throws a `TypeError` — the code raises an error here
rather than silently treating the level as readonly, which would have
allowed this `SELECT` (third conjunct). -/
theorem unknown_level_toString_cex :
    ("toString" ≠ "readonly" ∧ "toString" ≠ "modify" ∧ "toString" ≠ "ddl"
        ∧ "toString" ≠ "custom")
      ∧ isQueryAllowedJs "SELECT 1" (Config.mk "toString" [] ⟨true, [], [], [], []⟩)
          = Except.error "TypeError: allowedCommands.includes is not a function"
      ∧ isQueryAllowed "SELECT 1" (Config.mk "readonly" [] ⟨true, [], [], [], []⟩) = true := by
  refine ⟨by decide, rfl, by decide⟩

/-! ### The denied-query response -/

/-- C9 (amended): the allow/deny decision is independent of the message
text; a denied query yields the `some` result whose text interpolates the
active level name and the *configured custom command list*
(`config.allowedCommands`), joined in configured order — which coincides
with the active level's permitted-command list only when the level is
`custom`.  (The claim that the text carries the active level's permitted
list is refuted by `denied_text_cex`.) -/
theorem denied_result_shape (sql : String) (config : Config) :
    (executeQueryGate sql config = none ↔ isQueryAllowed sql config = true)
      ∧ (isQueryAllowed sql config = false →
          executeQueryGate sql config
            = some ("Query not allowed. Current level: " ++ config.queryLevel
                ++ ". Allowed commands: " ++ String.intercalate ", " config.allowedCommands))
      ∧ (config.queryLevel = "custom" →
          queryLevelCommands config config.queryLevel = some config.allowedCommands) := by
  refine ⟨?_, ?_, ?_⟩
  · constructor
    · intro h
      by_cases ha : isQueryAllowed sql config = true
      · exact ha
      · simp only [Bool.not_eq_true] at ha
        rw [executeQueryGate, ha] at h
        exact absurd h (by simp)
    · intro ha
      rw [executeQueryGate, ha]
      rfl
  · intro ha
    rw [executeQueryGate, ha]
    rfl
  · intro hc
    rw [hc, queryLevelCommands]
    rfl

/-- Witness for `denied_result_shape` at a concrete configuration. -/
theorem denied_result_shape_witness :
    executeQueryGate "DELETE FROM t" (Config.mk "custom" ["SELECT"] ⟨true, [], [], [], []⟩)
        = some ("Query not allowed. Current level: " ++ "custom"
            ++ ". Allowed commands: " ++ String.intercalate ", " ["SELECT"])
      ∧ queryLevelCommands (Config.mk "custom" ["SELECT"] ⟨true, [], [], [], []⟩) "custom"
          = some ["SELECT"] := by
  constructor
  · exact (denied_result_shape "DELETE FROM t"
      (Config.mk "custom" ["SELECT"] ⟨true, [], [], [], []⟩)).2.1 (by decide)
  · exact (denied_result_shape "DELETE FROM t"
      (Config.mk "custom" ["SELECT"] ⟨true, [], [], [], []⟩)).2.2 rfl

/-- C9 counterexample: under `readonly` with no custom commands configured,
the denied-query text does not contain the active level's permitted-command
list (`["SELECT"]`) at all — `executeQuery` interpolates
`config.allowedCommands`, not `QUERY_LEVELS[queryLevel]`. -/
theorem denied_text_cex :
    executeQueryGate "DELETE FROM users" (Config.mk "readonly" [] ⟨true, [], [], [], []⟩)
        = some (deniedText (Config.mk "readonly" [] ⟨true, [], [], [], []⟩))
      ∧ queryLevelCommands (Config.mk "readonly" [] ⟨true, [], [], [], []⟩) "readonly"
          = some ["SELECT"]
      ∧ containsSub "SELECT" (deniedText (Config.mk "readonly" [] ⟨true, [], [], [], []⟩)) = false
      ∧ deniedText (Config.mk "readonly" [] ⟨true, [], [], [], []⟩)
          ≠ deniedTextSpec (Config.mk "readonly" [] ⟨true, [], [], [], []⟩) := by
  refine ⟨by decide, by decide, by decide, by decide⟩

/-! ### Classifier lemmas: upper-casing commutes with the cleaning pipeline -/

theorem upChar_cases (c : Char) :
    upChar c = c
      ∨ (c ∈ ['a','b','c','d','e','f','g','h','i','j','k','l','m',
              'n','o','p','q','r','s','t','u','v','w','x','y','z']
          ∧ upChar c ∈ ['A','B','C','D','E','F','G','H','I','J','K','L','M',
              'N','O','P','Q','R','S','T','U','V','W','X','Y','Z']) := by
  unfold upChar
  split
  all_goals first | (left; rfl) | (right; constructor <;> decide)

theorem upChar_eq_dash_iff (c : Char) : upChar c = '-' ↔ c = '-' := by
  rcases upChar_cases c with h | ⟨hc, hu⟩
  · rw [h]
  · constructor
    · intro hh; rw [hh] at hu; exact absurd hu (by decide)
    · intro hh; rw [hh] at hc; exact absurd hc (by decide)

theorem upChar_eq_slash_iff (c : Char) : upChar c = '/' ↔ c = '/' := by
  rcases upChar_cases c with h | ⟨hc, hu⟩
  · rw [h]
  · constructor
    · intro hh; rw [hh] at hu; exact absurd hu (by decide)
    · intro hh; rw [hh] at hc; exact absurd hc (by decide)

theorem upChar_eq_star_iff (c : Char) : upChar c = '*' ↔ c = '*' := by
  rcases upChar_cases c with h | ⟨hc, hu⟩
  · rw [h]
  · constructor
    · intro hh; rw [hh] at hu; exact absurd hu (by decide)
    · intro hh; rw [hh] at hc; exact absurd hc (by decide)

theorem isWsChar_upChar (c : Char) : isWsChar (upChar c) = isWsChar c := by
  rcases upChar_cases c with h | ⟨hc, hu⟩
  · rw [h]
  · rw [(by decide : ∀ x ∈ ['A','B','C','D','E','F','G','H','I','J','K','L','M',
        'N','O','P','Q','R','S','T','U','V','W','X','Y','Z'], isWsChar x = false) _ hu,
      (by decide : ∀ x ∈ ['a','b','c','d','e','f','g','h','i','j','k','l','m',
        'n','o','p','q','r','s','t','u','v','w','x','y','z'], isWsChar x = false) _ hc]

theorem isLineTerm_upChar (c : Char) : isLineTerm (upChar c) = isLineTerm c := by
  rcases upChar_cases c with h | ⟨hc, hu⟩
  · rw [h]
  · rw [(by decide : ∀ x ∈ ['A','B','C','D','E','F','G','H','I','J','K','L','M',
        'N','O','P','Q','R','S','T','U','V','W','X','Y','Z'], isLineTerm x = false) _ hu,
      (by decide : ∀ x ∈ ['a','b','c','d','e','f','g','h','i','j','k','l','m',
        'n','o','p','q','r','s','t','u','v','w','x','y','z'], isLineTerm x = false) _ hc]

theorem upChar_upChar (c : Char) : upChar (upChar c) = upChar c := by
  rcases upChar_cases c with h | ⟨-, hu⟩
  · rw [h]; exact h
  · exact (by decide : ∀ x ∈ ['A','B','C','D','E','F','G','H','I','J','K','L','M',
      'N','O','P','Q','R','S','T','U','V','W','X','Y','Z'], upChar x = x) _ hu

theorem wsChar_ne_dash (c : Char) (h : isWsChar c = true) : c ≠ '-' := by
  intro hh
  rw [hh] at h
  exact absurd h (by decide)

theorem wsChar_ne_slash (c : Char) (h : isWsChar c = true) : c ≠ '/' := by
  intro hh
  rw [hh] at h
  exact absurd h (by decide)

theorem stripLine_map_upChar : ∀ (m : Bool) (l : List Char),
    stripLine m (List.map upChar l) = List.map upChar (stripLine m l) := by
  intro m l
  induction m, l using stripLine.induct with
  | case1 => simp [stripLine]
  | case2 c rest h ih => simp [stripLine, isLineTerm_upChar, h, ih]
  | case3 c rest h ih =>
    simp only [Bool.not_eq_true] at h
    simp [stripLine, isLineTerm_upChar, h, ih]
  | case4 c => simp [stripLine]
  | case5 c1 c2 rest h ih =>
    obtain ⟨rfl, rfl⟩ := h
    simp [stripLine, upChar, ih]
  | case6 c1 c2 rest h ih =>
    have h' : ¬(upChar c1 = '-' ∧ upChar c2 = '-') := by
      rw [upChar_eq_dash_iff, upChar_eq_dash_iff]
      exact h
    simp only [List.map_cons] at ih ⊢
    simp [stripLine, h, h', ih]

theorem stripBlock_map_upChar : ∀ (saved : Option (List Char)) (l : List Char),
    stripBlock (Option.map (List.map upChar) saved) (List.map upChar l)
      = List.map upChar (stripBlock saved l) := by
  intro saved l
  induction saved, l using stripBlock.induct with
  | case1 => simp [stripBlock]
  | case2 saved => simp [stripBlock, upChar]
  | case3 c => simp [stripBlock]
  | case4 c1 c2 rest h ih =>
    obtain ⟨rfl, rfl⟩ := h
    simp only [Option.map, List.map_cons, List.map_nil] at ih ⊢
    simp [stripBlock, upChar, ih]
  | case5 c1 c2 rest h ih =>
    have h' : ¬(upChar c1 = '/' ∧ upChar c2 = '*') := by
      rw [upChar_eq_slash_iff, upChar_eq_star_iff]
      exact h
    simp only [Option.map, List.map_cons, List.map_nil] at ih ⊢
    simp [stripBlock, h, h', ih]
  | case6 saved c => simp [stripBlock, upChar]
  | case7 saved c1 c2 rest h ih =>
    obtain ⟨rfl, rfl⟩ := h
    simp only [Option.map, List.map_cons, List.map_nil] at ih ⊢
    simp [stripBlock, upChar, ih]
  | case8 saved c1 c2 rest h ih =>
    have h' : ¬(upChar c1 = '*' ∧ upChar c2 = '/') := by
      rw [upChar_eq_star_iff, upChar_eq_slash_iff]
      exact h
    simp only [Option.map, List.map_cons, List.map_nil] at ih ⊢
    simp [stripBlock, h, h', ih]

theorem jsTrim_map_upChar (l : List Char) :
    jsTrim (List.map upChar l) = List.map upChar (jsTrim l) := by
  have hp : (isWsChar ∘ upChar) = isWsChar := funext isWsChar_upChar
  rw [jsTrim, jsTrim, List.dropWhile_map, hp, ← List.map_reverse, List.dropWhile_map, hp,
    ← List.map_reverse]

/-! ### Classifier lemmas: head invariances and degenerate inputs -/

theorem stripLine_false_cons_ne (c : Char) (l : List Char) (hc : c ≠ '-') :
    stripLine false (c :: l) = c :: stripLine false l := by
  cases l with
  | nil => simp [stripLine]
  | cons c2 rest =>
    rw [stripLine, if_neg]
    intro hh
    exact hc hh.1

theorem stripBlock_none_cons_ne (c : Char) (l : List Char) (hc : c ≠ '/') :
    stripBlock none (c :: l) = c :: stripBlock none l := by
  cases l with
  | nil => simp [stripBlock]
  | cons c2 rest =>
    rw [stripBlock, if_neg]
    intro hh
    exact hc hh.1

theorem jsTrim_ws_cons (c : Char) (l : List Char) (h : isWsChar c = true) :
    jsTrim (c :: l) = jsTrim l := by
  rw [jsTrim, jsTrim, List.dropWhile_cons_of_pos h]

theorem getSqlCommandList_ws_cons (c : Char) (l : List Char) (h : isWsChar c = true) :
    getSqlCommandList (c :: l) = getSqlCommandList l := by
  rw [getSqlCommandList, getSqlCommandList,
    stripLine_false_cons_ne c l (wsChar_ne_dash c h),
    stripBlock_none_cons_ne c _ (wsChar_ne_slash c h),
    jsTrim_ws_cons c _ h]

theorem getSqlCommandList_upper (l : List Char) :
    getSqlCommandList (List.map upChar l) = getSqlCommandList l := by
  have key : List.map upChar (jsTrim (stripBlock none (stripLine false (List.map upChar l))))
      = List.map upChar (jsTrim (stripBlock none (stripLine false l))) := by
    rw [stripLine_map_upChar,
      show stripBlock none (List.map upChar (stripLine false l))
          = List.map upChar (stripBlock none (stripLine false l))
        from stripBlock_map_upChar none (stripLine false l),
      jsTrim_map_upChar, List.map_map,
      (funext upChar_upChar : upChar ∘ upChar = upChar)]
  rw [getSqlCommandList, getSqlCommandList, key]

theorem stripLine_true_skip (text : List Char) (l : List Char)
    (h : ∀ c ∈ text, isLineTerm c = false) :
    stripLine true (text ++ l) = stripLine true l := by
  induction text with
  | nil => rfl
  | cons c ts ih =>
    rw [List.cons_append, stripLine, if_neg (by simp [h c (List.mem_cons_self c ts)])]
    exact ih (fun x hx => h x (List.mem_cons_of_mem c hx))

theorem getSqlCommandList_line_comment (text : List Char) (l : List Char)
    (h : ∀ c ∈ text, isLineTerm c = false) :
    getSqlCommandList ('-' :: '-' :: (text ++ '\n' :: l)) = getSqlCommandList l := by
  have h1 : stripLine false ('-' :: '-' :: (text ++ '\n' :: l))
      = stripLine false ('\n' :: l) := by
    rw [stripLine, if_pos ⟨rfl, rfl⟩, stripLine_true_skip text ('\n' :: l) h,
      stripLine_false_cons_ne '\n' l (by decide)]
    simp [stripLine, isLineTerm]
  rw [getSqlCommandList, getSqlCommandList, h1]
  have := getSqlCommandList_ws_cons '\n' l (by decide)
  rw [getSqlCommandList, getSqlCommandList] at this
  rw [this]

theorem stripLine_false_id (l : List Char) (h : ∀ c ∈ l, isWsChar c = true) :
    stripLine false l = l := by
  induction l with
  | nil => rfl
  | cons c ls ih =>
    rw [stripLine_false_cons_ne c ls (wsChar_ne_dash c (h c (List.mem_cons_self c ls))),
      ih (fun x hx => h x (List.mem_cons_of_mem c hx))]

theorem stripBlock_none_id (l : List Char) (h : ∀ c ∈ l, isWsChar c = true) :
    stripBlock none l = l := by
  induction l with
  | nil => rfl
  | cons c ls ih =>
    rw [stripBlock_none_cons_ne c ls (wsChar_ne_slash c (h c (List.mem_cons_self c ls))),
      ih (fun x hx => h x (List.mem_cons_of_mem c hx))]

theorem getSqlCommandList_ws_only (l : List Char) (h : ∀ c ∈ l, isWsChar c = true) :
    getSqlCommandList l = "UNKNOWN" := by
  have h3 : jsTrim l = [] := by
    rw [jsTrim, List.dropWhile_eq_nil_iff.mpr h]
    rfl
  rw [getSqlCommandList, stripLine_false_id l h, stripBlock_none_id l h, h3]
  rfl

theorem getSqlCommandList_vocab (l : List Char) :
    getSqlCommandList l = "UNKNOWN" ∨ getSqlCommandList l ∈ commands := by
  rw [getSqlCommandList]
  split
  · next h =>
    right
    simp only [Bool.and_eq_true] at h
    simpa [List.contains, List.elem_iff] using h.2
  · left; rfl

/-- C3: the classifier is a pure function of the comment-stripped, trimmed,
upper-cased text: it is case-insensitive (invariant under upper-casing the
input), invariant under leading whitespace and under a leading line comment,
sends empty/whitespace-only input to `UNKNOWN`, only ever returns `UNKNOWN`
or a member of the fixed 17-command vocabulary, and satisfies the spec's
concrete examples. -/
theorem classifier_contract :
    (∀ s : String, getSqlCommand (upperString s) = getSqlCommand s)
      ∧ (∀ (c : Char) (s : String), isWsChar c = true →
          getSqlCommand (String.mk (c :: s.data)) = getSqlCommand s)
      ∧ (∀ (t s : String), (∀ c ∈ t.data, isLineTerm c = false) →
          getSqlCommand ("--" ++ t ++ "\n" ++ s) = getSqlCommand s)
      ∧ (∀ s : String, (∀ c ∈ s.data, isWsChar c = true) → getSqlCommand s = "UNKNOWN")
      ∧ (∀ s : String, getSqlCommand s = "UNKNOWN" ∨ getSqlCommand s ∈ commands)
      ∧ getSqlCommand "-- x\nSELECT 1" = "SELECT"
      ∧ getSqlCommand "select 1" = "SELECT"
      ∧ getSqlCommand "" = "UNKNOWN" := by
  refine ⟨?_, ?_, ?_, ?_, ?_, by decide, by decide, by decide⟩
  · intro s
    exact getSqlCommandList_upper s.data
  · intro c s h
    exact getSqlCommandList_ws_cons c s.data h
  · intro t s h
    have hdata : ("--" ++ t ++ "\n" ++ s).data = '-' :: '-' :: (t.data ++ '\n' :: s.data) := by
      simp [String.data_append]
    rw [getSqlCommand, hdata]
    exact getSqlCommandList_line_comment t.data s.data h
  · intro s h
    exact getSqlCommandList_ws_only s.data h
  · intro s
    exact getSqlCommandList_vocab s.data

/-- Witness for `classifier_contract` at concrete inputs. -/
theorem classifier_contract_witness :
    getSqlCommand (String.mk (' ' :: "SELECT 1".data)) = getSqlCommand "SELECT 1"
      ∧ getSqlCommand ("--" ++ " x" ++ "\n" ++ "select 1") = getSqlCommand "select 1"
      ∧ getSqlCommand "   " = "UNKNOWN" :=
  ⟨classifier_contract.2.1 ' ' "SELECT 1" (by decide),
   classifier_contract.2.2.1 " x" "select 1" (by decide),
   classifier_contract.2.2.2.1 "   " (by decide)⟩
